import Mathlib

/-!
Verification of the attribute-list decoder `attr_scan64` / `attr_vscan64`
from `src/postfix/src/util/attr_scan64.c`.

The wire is modelled as a list of bytes (`List Nat`, each 0..255); end of the
list is end-of-stream (`VSTREAM_EOF`).  Decoded names and values are byte
lists as well.  The variadic caller wish list becomes a `List Wish`, and the
`-1` / count / `msg_panic` outcomes become the three constructors of
`ScanResult`.
-/

namespace AttrScan64

/-- ASCII colon, the name/value separator on the wire. -/
def colonB : Nat := 58

/-- ASCII newline, the line terminator on the wire. -/
def nlB : Nat := 10

/-! ### Base64 codec

Modelled from the spec: `base64_code.c` is not under `src/`; the spec says
fields are "standard base64 encoding of the raw bytes, no embedded ':' or
newline possible", and that malformed base64 content is a hard fault.
We model the standard alphabet with `=` (ASCII 61) padding; decoding fails
on any character outside the alphabet or on a group shorter than four
characters; the empty input decodes to the empty byte string. -/

/-- Standard base64 alphabet: value 0..63 to ASCII code. -/
def b64EncChar (k : Nat) : Nat :=
  if k < 26 then 65 + k            -- 'A'..'Z'
  else if k < 52 then 97 + (k - 26) -- 'a'..'z'
  else if k < 62 then 48 + (k - 52) -- '0'..'9'
  else if k = 62 then 43            -- '+'
  else 47                           -- '/'

/-- Inverse of the base64 alphabet; `none` for characters outside it. -/
def b64DecChar (c : Nat) : Option Nat :=
  if 65 ≤ c ∧ c ≤ 90 then some (c - 65)
  else if 97 ≤ c ∧ c ≤ 122 then some (c - 97 + 26)
  else if 48 ≤ c ∧ c ≤ 57 then some (c - 48 + 52)
  else if c = 43 then some 62
  else if c = 47 then some 63
  else none

/-- Standard base64 encoding of a byte list, with `=` padding. -/
def base64_encode : List Nat → List Nat
  | [] => []
  | [a] => [b64EncChar (a / 4), b64EncChar ((a % 4) * 16), 61, 61]
  | [a, b] => [b64EncChar (a / 4), b64EncChar ((a % 4) * 16 + b / 16),
               b64EncChar ((b % 16) * 4), 61]
  | a :: b :: c :: rest =>
      b64EncChar (a / 4) :: b64EncChar ((a % 4) * 16 + b / 16) ::
      b64EncChar ((b % 16) * 4 + c / 64) :: b64EncChar (c % 64) ::
      base64_encode rest

/-- Standard base64 decoding; `none` on malformed input. -/
def base64_decode : List Nat → Option (List Nat)
  | [] => some []
  | c1 :: c2 :: c3 :: c4 :: rest =>
      match b64DecChar c1, b64DecChar c2 with
      | some v1, some v2 =>
        if c3 = 61 ∧ c4 = 61 ∧ rest = [] then
          some [v1 * 4 + v2 / 16]
        else if c4 = 61 ∧ rest = [] then
          match b64DecChar c3 with
          | some v3 => some [v1 * 4 + v2 / 16, (v2 % 16) * 16 + v3 / 4]
          | none => none
        else
          match b64DecChar c3, b64DecChar c4, base64_decode rest with
          | some v3, some v4, some tail =>
              some ((v1 * 4 + v2 / 16) :: ((v2 % 16) * 16 + v3 / 4) ::
                    ((v3 % 4) * 64 + v4) :: tail)
          | _, _, _ => none
      | _, _ => none
  | _ => none

/-! ### Field decoder (`attr_scan64_string`, lines 159-194)

`attr_scan64_string` pulls raw characters off the stream until a `:` or
newline, then base64-decodes them.  End-of-stream before a delimiter is a
fault; so is malformed base64 (both are returned to the caller as `-1`,
i.e. `none` here).  Note that the raw-length bound check of lines 177-183
is compiled out in the source (`#if 0`) and is therefore absent here. -/

/-- Raw read loop of `attr_scan64_string` (lines 169-185): accumulate bytes
up to the first `:` or newline; `none` when the stream ends first. -/
def readB64Field : List Nat → Option (List Nat × Nat × List Nat)
  | [] => none
  | c :: rest =>
      if c = colonB ∨ c = nlB then some ([], c, rest)
      else
        match readB64Field rest with
        | none => none
        | some (raw, d, r) => some (c :: raw, d, r)

/-- `attr_scan64_string` (lines 159-194): read one field, base64-decode it,
and report the terminating delimiter.  `none` models the `-1` return
(premature end-of-input, line 170-175, or malformed base64, line 186-190). -/
def attr_scan64_string (s : List Nat) : Option (List Nat × Nat × List Nat) :=
  match readB64Field s with
  | none => none
  | some (raw, d, rest) =>
      match base64_decode raw with
      | none => none
      | some plain => some (plain, d, rest)

/-! ### Numeric converters (`attr_scan64_number`, `attr_scan64_long_number`)

Both call `attr_scan64_string` and then `sscanf(str, "%u%c", ptr, &junk)`
(resp. `"%lu%c"`), faulting unless exactly the number converts and `junk`
stays 0.  `sscanf` reads the NUL-terminated C-string view of the decoded
bytes; the `%u` conversion skips leading C whitespace, accepts an optional
`+`/`-` sign, requires at least one decimal digit, and (per glibc
`strtoul` semantics) saturates at `ULONG_MAX` on overflow before the value
is stored into the declared width modulo `2^width`.  The conversion
succeeds with `junk = 0` exactly when no character of the C string follows
the digits. -/

/-- C-string view of a byte list: everything before the first NUL byte. -/
def cstr (bs : List Nat) : List Nat := bs.takeWhile (fun c => c ≠ 0)

/-- C `isspace` in the POSIX locale: space and the control range 9..13. -/
def isSpaceB (c : Nat) : Bool := c = 32 || (9 ≤ c && c ≤ 13)

/-- ASCII decimal digit test. -/
def isDigitB (c : Nat) : Bool := 48 ≤ c && c ≤ 57

/-- Value of a digit string (most significant first). -/
def digitsVal : List Nat → Nat → Nat
  | [], acc => acc
  | c :: t, acc => digitsVal t (acc * 10 + (c - 48))

/-- `ULONG_MAX` on the LP64 platforms postfix targets. -/
def ULONG_MAX : Nat := 2 ^ 64 - 1

/-- The `sscanf(s, "%u%c", ...)` test of `attr_scan64_number` (line 206)
and its `%lu` sibling (line 225), on the C-string view of the decoded
field: `some v` when exactly one number converts with no trailing
character, `none` otherwise.  `width` is the bit width of the destination
(32 for `unsigned`, 64 for `unsigned long`). -/
def sscanf_u (width : Nat) (bs : List Nat) : Option Nat :=
  let cs := (cstr bs).dropWhile isSpaceB
  let signDigits : Bool × List Nat :=
    match cs with
    | 43 :: t => (false, t)
    | 45 :: t => (true, t)
    | t => (false, t)
  let neg := signDigits.1
  let ds := signDigits.2
  if ds = [] ∨ ¬ ds.all isDigitB then none
  else
    let v := min (digitsVal ds 0) ULONG_MAX
    let u := if neg then (2 ^ 64 - v % 2 ^ 64) % 2 ^ 64 else v
    some (u % 2 ^ width)

/-- `attr_scan64_number` (lines 198-212): pull a string field, then require
it to parse as an `unsigned` with nothing trailing. -/
def attr_scan64_number (s : List Nat) : Option (Nat × Nat × List Nat) :=
  match attr_scan64_string s with
  | none => none
  | some (plain, d, rest) =>
      match sscanf_u 32 plain with
      | none => none
      | some v => some (v, d, rest)

/-- `attr_scan64_long_number` (lines 216-231): as `attr_scan64_number` but
for `unsigned long`. -/
def attr_scan64_long_number (s : List Nat) : Option (Nat × Nat × List Nat) :=
  match attr_scan64_string s with
  | none => none
  | some (plain, d, rest) =>
      match sscanf_u 64 plain with
      | none => none
      | some v => some (v, d, rest)

/-- The skip-unwanted-attribute loop of lines 336-337: consume bytes up to
and including the next newline (or to end-of-stream). -/
def skipToLineEnd : List Nat → List Nat
  | [] => []
  | c :: rest => if c = nlB then rest else skipToLineEnd rest

/-! ### Scanner data model (`attr_vscan64`, lines 235-426)

Mode-flag bit values are modelled from the spec: `attr.h` is not under
`src/`; the spec lists four independent flags with `Strict` the
combination of `ReportMissing` and `ReportExtra` and `ATTR_FLAG_ALL` the
mask of all recognized bits. -/

def ATTR_FLAG_MISSING : Nat := 1
def ATTR_FLAG_EXTRA : Nat := 2
def ATTR_FLAG_MORE : Nat := 4
def ATTR_FLAG_STRICT : Nat := ATTR_FLAG_MISSING ||| ATTR_FLAG_EXTRA
def ATTR_FLAG_ALL : Nat := ATTR_FLAG_MISSING ||| ATTR_FLAG_EXTRA ||| ATTR_FLAG_MORE

/-- Test one flag bit of the `flags` argument. -/
def hasFlag (flags bit : Nat) : Bool := flags &&& bit ≠ 0

/-- One entry of the caller's variadic wish list: the `ATTR_TYPE_...` code
plus the arguments that follow it.  `other` stands for any unrecognized
type code (the caller still supplies a name pointer, line 290). -/
inductive Wish where
  | num (name : List Nat)      -- ATTR_TYPE_NUM, char * name, unsigned *
  | long (name : List Nat)     -- ATTR_TYPE_LONG, char * name, unsigned long *
  | str (name : List Nat)      -- ATTR_TYPE_STR, char * name, VSTRING *
  | hash                       -- ATTR_TYPE_HASH, HTABLE *
  | done                       -- ATTR_TYPE_END
  | other (code : Nat) (name : List Nat)
deriving DecidableEq

/-- The caller-supplied name of a wish (the `wanted_name` pointer); `[]`
for the entries that carry no name. -/
def wishName : Wish → List Nat
  | Wish.num n => n
  | Wish.long n => n
  | Wish.str n => n
  | Wish.other _ n => n
  | _ => []

/-- The match test of lines 323-325: a hash phase accepts any wire name;
otherwise a non-END wish accepts a wire name that `strcmp`-equals its own
(C strings, hence compared up to the first NUL). -/
def matchWish (w : Wish) (nm : List Nat) : Bool :=
  w = Wish.hash || (w ≠ Wish.done && cstr (wishName w) = cstr nm)

/-- A value stored through one of the caller's destination pointers. -/
inductive Binding where
  | bnum (name : List Nat) (value : Nat)
  | blong (name : List Nat) (value : Nat)
  | bstr (name : List Nat) (value : List Nat)
deriving DecidableEq

/-- The warnings the scanner can log on a path that still returns a count
(`msg_warn` calls at lines 315, 328 and 413); warnings on fault paths are
subsumed by the fault itself.  Payloads are the C strings printed. -/
inductive Warn where
  | missing (wanted : List Nat)
  | spurious (name : List Nat)
  | duplicate (name : List Nat)
deriving DecidableEq

/-- Outcome of `attr_vscan64`: a success count together with the
destination bindings, the hash-capture table, the warnings logged and the
unread remainder of the stream; or the `-1` protocol fault; or a
`msg_panic` process termination. -/
inductive ScanResult where
  | ok (count : Nat) (binds : List Binding)
       (table : List (List Nat × List Nat)) (warns : List Warn)
       (rest : List Nat)
  | fault
  | panic
deriving DecidableEq

/-- `htable_locate` on the capture table: look a C-string key up. -/
def htable_locate (t : List (List Nat × List Nat)) (k : List Nat) :
    Option (List Nat) :=
  (t.find? (fun e => e.1 = k)).map (fun e => e.2)

/-- Result of the locate-next-attribute loop (lines 297-338). -/
inductive FindRes where
  | found (nm : List Nat) (d : Nat) (rest : List Nat)  -- break at line 326
  | term (rest : List Nat)    -- empty name ended by newline (lines 310-318)
  | stop (nm : List Nat) (rest : List Nat)  -- ATTR_FLAG_EXTRA return, line 330
  | eof                       -- EOF or malformed name, return -1 (line 309)
deriving DecidableEq

/-- The locate loop of lines 297-338: read wire attribute names, skipping
lines the current wish does not ask for, until a match, the list
terminator, a spurious attribute under `ATTR_FLAG_EXTRA`, or a fault.
`fuel` bounds the recursion; every cycle consumes at least one stream
byte, so `s.length + 1` fuel can never run out before a natural exit. -/
def scanFind (fuel : Nat) (flags : Nat) (w : Wish) (s : List Nat) : FindRes :=
  match fuel with
  | 0 => FindRes.eof
  | fuel + 1 =>
      match attr_scan64_string s with
      | none => FindRes.eof
      | some (nm, d, rest) =>
          if d = nlB ∧ nm = [] then FindRes.term rest
          else if matchWish w nm then FindRes.found nm d rest
          else if hasFlag flags ATTR_FLAG_EXTRA then FindRes.stop nm rest
          else scanFind fuel flags w (skipToLineEnd rest)

/-- The conversion loop of `attr_vscan64` (lines 266-425).  One call is
one iteration of the `for (conversions = 0; ...; conversions++)` loop:
select the next wish (lines 277-292; a hash phase keeps the `hash` entry
at the head, matching `wanted_type` staying `ATTR_TYPE_HASH`), locate a
wire attribute for it, convert (lines 348-424), and recurse with the
count incremented.  An exhausted wish list without `ATTR_TYPE_END` means
`va_arg` past the caller's arguments, a contract violation modelled as
`panic`.  `fuel` bounds the recursion; each cycle consumes a wish entry
or (in the hash phase) at least two stream bytes. -/
def scanStep (fuel : Nat) (flags : Nat) (wishes : List Wish) (s : List Nat)
    (cnt : Nat) (binds : List Binding)
    (table : List (List Nat × List Nat)) (warns : List Warn) : ScanResult :=
  match fuel with
  | 0 => ScanResult.fault
  | fuel + 1 =>
      match wishes with
      | [] => ScanResult.panic
      | Wish.done :: _ =>
          -- lines 279-282
          if hasFlag flags ATTR_FLAG_MORE then
            ScanResult.ok cnt binds table warns s
          else
            match scanFind (s.length + 1) flags Wish.done s with
            | FindRes.eof => ScanResult.fault
            | FindRes.term s2 => ScanResult.ok cnt binds table warns s2
            | FindRes.stop nm s2 =>
                ScanResult.ok cnt binds table
                  (warns ++ [Warn.spurious (cstr nm)]) s2
            | FindRes.found _ _ _ => ScanResult.panic  -- unreachable: END never matches
      | Wish.hash :: after =>
          match after with
          | Wish.done :: _ =>
              -- lines 283-288 passed the shape check; hash conversion, lines 397-421
              match scanFind (s.length + 1) flags Wish.hash s with
              | FindRes.eof => ScanResult.fault
              | FindRes.term s2 => ScanResult.ok cnt binds table warns s2
              | FindRes.stop _ _ => ScanResult.panic  -- unreachable: hash matches any name
              | FindRes.found nm d s2 =>
                  if d ≠ colonB then ScanResult.fault
                  else
                    match attr_scan64_string s2 with
                    | none => ScanResult.fault
                    | some (v, d2, s3) =>
                        if d2 ≠ nlB then ScanResult.fault
                        else if (htable_locate table (cstr nm)).isSome then
                          if hasFlag flags ATTR_FLAG_EXTRA then
                            ScanResult.ok cnt binds table
                              (warns ++ [Warn.duplicate (cstr nm)]) s3
                          else
                            scanStep fuel flags wishes s3 (cnt + 1) binds
                              table warns
                        else
                          scanStep fuel flags wishes s3 (cnt + 1) binds
                            (table ++ [(cstr nm, cstr v)]) warns
          | _ => ScanResult.panic  -- ATTR_TYPE_HASH not followed by ATTR_TYPE_END
      | w :: after =>
          match scanFind (s.length + 1) flags w s with
          | FindRes.eof => ScanResult.fault
          | FindRes.term s2 =>
              ScanResult.ok cnt binds table
                (if hasFlag flags ATTR_FLAG_MISSING then
                   warns ++ [Warn.missing (cstr (wishName w))]
                 else warns) s2
          | FindRes.stop nm s2 =>
              ScanResult.ok cnt binds table
                (warns ++ [Warn.spurious (cstr nm)]) s2
          | FindRes.found _nm d s2 =>
              match w with
              | Wish.num name =>
                  -- lines 349-364
                  if d ≠ colonB then ScanResult.fault
                  else
                    match attr_scan64_number s2 with
                    | none => ScanResult.fault
                    | some (v, d2, s3) =>
                        if d2 ≠ nlB then ScanResult.fault
                        else
                          scanStep fuel flags after s3 (cnt + 1)
                            (binds ++ [Binding.bnum name v]) table warns
              | Wish.long name =>
                  -- lines 365-380
                  if d ≠ colonB then ScanResult.fault
                  else
                    match attr_scan64_long_number s2 with
                    | none => ScanResult.fault
                    | some (v, d2, s3) =>
                        if d2 ≠ nlB then ScanResult.fault
                        else
                          scanStep fuel flags after s3 (cnt + 1)
                            (binds ++ [Binding.blong name v]) table warns
              | Wish.str name =>
                  -- lines 381-396
                  if d ≠ colonB then ScanResult.fault
                  else
                    match attr_scan64_string s2 with
                    | none => ScanResult.fault
                    | some (v, d2, s3) =>
                        if d2 ≠ nlB then ScanResult.fault
                        else
                          scanStep fuel flags after s3 (cnt + 1)
                            (binds ++ [Binding.bstr name v]) table warns
              | _ => ScanResult.panic  -- switch default, lines 422-423: unknown type code

/-- `attr_vscan64` (lines 235-426): sanity-check the flags (lines 249-253,
`msg_panic` on unrecognized bits), then run the conversion loop from an
empty state.  The fuel is an upper bound on the loop's iterations: every
iteration either consumes a wish-list entry or at least two stream bytes. -/
def attr_vscan64 (flags : Nat) (wishes : List Wish) (s : List Nat) :
    ScanResult :=
  if ATTR_FLAG_ALL < flags then ScanResult.panic
  else scanStep (wishes.length + s.length + 4) flags wishes s 0 [] [] []

/-- `attr_scan64` (lines 430-439): the variadic wrapper, identical in
behaviour to `attr_vscan64`. -/
def attr_scan64 (flags : Nat) (wishes : List Wish) (s : List Nat) :
    ScanResult :=
  attr_vscan64 flags wishes s

/-- Wire image of one simple attribute, as the external encoder
`attr_print64` produces it.  Modelled from the spec: `attr_print64` is an
external collaborator; its contract is
`simple-attr := b64(name) ":" b64(value) "\n"`. -/
def encAttr (n v : List Nat) : List Nat :=
  base64_encode n ++ colonB :: base64_encode v ++ [nlB]

/-! ### Helper lemmas on the codec and the field decoder -/

/-- Decoding inverts the alphabet map on 6-bit values. -/
theorem b64DecChar_encChar : ∀ k < 64, b64DecChar (b64EncChar k) = some k := by
  decide

/-- Alphabet characters are never the colon, the newline, or the pad. -/
theorem b64EncChar_ne : ∀ k < 64,
    b64EncChar k ≠ colonB ∧ b64EncChar k ≠ nlB ∧ b64EncChar k ≠ 61 := by
  decide

/-- Base64 output contains no wire delimiter, whatever the input bytes:
this is the invariant that makes the framing self-delimiting. -/
theorem base64_encode_no_delim :
    ∀ bs : List Nat, (∀ b ∈ bs, b < 256) →
      ∀ c ∈ base64_encode bs, c ≠ colonB ∧ c ≠ nlB
  | [], _, c, hc => by simp [base64_encode] at hc
  | [a], h, c, hc => by
      have ha : a < 256 := h a (by simp)
      simp only [base64_encode, List.mem_cons, List.not_mem_nil, or_false] at hc
      rcases hc with h1 | h1 | h1 | h1 <;> subst h1
      · exact ⟨(b64EncChar_ne _ (by omega)).1, (b64EncChar_ne _ (by omega)).2.1⟩
      · exact ⟨(b64EncChar_ne _ (by omega)).1, (b64EncChar_ne _ (by omega)).2.1⟩
      · exact ⟨by simp [colonB], by simp [nlB]⟩
      · exact ⟨by simp [colonB], by simp [nlB]⟩
  | [a, b], h, c, hc => by
      have ha : a < 256 := h a (by simp)
      have hb : b < 256 := h b (by simp)
      simp only [base64_encode, List.mem_cons, List.not_mem_nil, or_false] at hc
      rcases hc with h1 | h1 | h1 | h1 <;> subst h1
      · exact ⟨(b64EncChar_ne _ (by omega)).1, (b64EncChar_ne _ (by omega)).2.1⟩
      · exact ⟨(b64EncChar_ne _ (by omega)).1, (b64EncChar_ne _ (by omega)).2.1⟩
      · exact ⟨(b64EncChar_ne _ (by omega)).1, (b64EncChar_ne _ (by omega)).2.1⟩
      · exact ⟨by simp [colonB], by simp [nlB]⟩
  | a :: b :: c0 :: rest, h, c, hc => by
      have ha : a < 256 := h a (by simp)
      have hb : b < 256 := h b (by simp)
      have hc0 : c0 < 256 := h c0 (by simp)
      simp only [base64_encode, List.mem_cons] at hc
      rcases hc with h1 | h1 | h1 | h1 | h1
      · subst h1
        exact ⟨(b64EncChar_ne _ (by omega)).1, (b64EncChar_ne _ (by omega)).2.1⟩
      · subst h1
        exact ⟨(b64EncChar_ne _ (by omega)).1, (b64EncChar_ne _ (by omega)).2.1⟩
      · subst h1
        exact ⟨(b64EncChar_ne _ (by omega)).1, (b64EncChar_ne _ (by omega)).2.1⟩
      · subst h1
        exact ⟨(b64EncChar_ne _ (by omega)).1, (b64EncChar_ne _ (by omega)).2.1⟩
      · exact base64_encode_no_delim rest (fun x hx => h x (by simp [hx])) c h1

/-- Round trip: decoding an encoded byte string recovers it exactly. -/
theorem base64_decode_encode :
    ∀ bs : List Nat, (∀ b ∈ bs, b < 256) →
      base64_decode (base64_encode bs) = some bs
  | [], _ => rfl
  | [a], h => by
      have ha : a < 256 := h a (by simp)
      simp only [base64_encode, base64_decode]
      rw [b64DecChar_encChar _ (by omega), b64DecChar_encChar _ (by omega)]
      simp only [and_self, if_true, Option.some.injEq, List.cons.injEq, and_true]
      omega
  | [a, b], h => by
      have ha : a < 256 := h a (by simp)
      have hb : b < 256 := h b (by simp)
      simp only [base64_encode, base64_decode]
      rw [b64DecChar_encChar _ (by omega), b64DecChar_encChar _ (by omega),
          b64DecChar_encChar ((b % 16) * 4) (by omega)]
      have h61 : b64EncChar ((b % 16) * 4) ≠ 61 := (b64EncChar_ne _ (by omega)).2.2
      simp only [h61, false_and, if_false, and_self, if_true]
      simp only [Option.some.injEq, List.cons.injEq, and_true]
      omega
  | a :: b :: c :: rest, h => by
      have ha : a < 256 := h a (by simp)
      have hb : b < 256 := h b (by simp)
      have hc : c < 256 := h c (by simp)
      have ih := base64_decode_encode rest (fun x hx => h x (by simp [hx]))
      simp only [base64_encode, base64_decode]
      rw [b64DecChar_encChar _ (by omega), b64DecChar_encChar _ (by omega),
          b64DecChar_encChar ((b % 16) * 4 + c / 64) (by omega),
          b64DecChar_encChar (c % 64) (by omega)]
      have h61 : b64EncChar (c % 64) ≠ 61 := (b64EncChar_ne _ (by omega)).2.2
      simp only [h61, and_false, false_and, if_false, ih]
      simp only [Option.some.injEq, List.cons.injEq, and_true]
      refine ⟨by omega, by omega, by omega⟩

/-- Reading a delimiter-free raw field followed by a delimiter returns
exactly that field, the delimiter, and the remainder. -/
theorem readB64Field_append :
    ∀ raw : List Nat, (∀ c ∈ raw, c ≠ colonB ∧ c ≠ nlB) →
      ∀ d rest, (d = colonB ∨ d = nlB) →
        readB64Field (raw ++ d :: rest) = some (raw, d, rest)
  | [], _, d, rest, hd => by
      simp only [List.nil_append, readB64Field]
      rcases hd with h | h <;> simp [h]
  | c :: raw, h, d, rest, hd => by
      have hc := h c (by simp)
      have ih := readB64Field_append raw (fun x hx => h x (by simp [hx])) d rest hd
      simp only [List.cons_append, readB64Field, hc.1, hc.2, or_self, if_false,
                 List.append_eq, ih]

/-- Reading from a stream that holds no delimiter at all hits end-of-stream. -/
theorem readB64Field_none :
    ∀ s : List Nat, (∀ c ∈ s, c ≠ colonB ∧ c ≠ nlB) → readB64Field s = none
  | [], _ => rfl
  | c :: s, h => by
      have hc := h c (by simp)
      have ih := readB64Field_none s (fun x hx => h x (by simp [hx]))
      simp only [readB64Field, hc.1, hc.2, or_self, if_false, ih]

/-- `attr_scan64_string` on a conforming encoded field: returns the decoded
bytes and the delimiter. -/
theorem attr_scan64_string_enc (n : List Nat) (hn : ∀ b ∈ n, b < 256)
    (d : Nat) (rest : List Nat) (hd : d = colonB ∨ d = nlB) :
    attr_scan64_string (base64_encode n ++ d :: rest) = some (n, d, rest) := by
  unfold attr_scan64_string
  simp only [readB64Field_append (base64_encode n) (base64_encode_no_delim n hn)
               d rest hd,
             base64_decode_encode n hn]

/-- `attr_scan64_string` faults on a delimiter-free stream (end-of-stream
while reading the field). -/
theorem attr_scan64_string_eof (s : List Nat)
    (h : ∀ c ∈ s, c ≠ colonB ∧ c ≠ nlB) : attr_scan64_string s = none := by
  unfold attr_scan64_string
  rw [readB64Field_none s h]

/-- The skip loop consumes a newline-free prefix together with its newline. -/
theorem skipToLineEnd_append :
    ∀ xs : List Nat, (∀ c ∈ xs, c ≠ nlB) →
      ∀ rest, skipToLineEnd (xs ++ nlB :: rest) = rest
  | [], _, rest => by simp [skipToLineEnd]
  | c :: xs, h, rest => by
      have hc := h c (by simp)
      have ih := skipToLineEnd_append xs (fun x hx => h x (by simp [hx])) rest
      simp only [List.cons_append, skipToLineEnd, hc, if_false, List.append_eq, ih]

/-- The C-string view of an all-NUL byte string is empty. -/
theorem cstr_replicate_zero : ∀ k, cstr (List.replicate k 0) = []
  | 0 => rfl
  | k + 1 => by simp [cstr, List.replicate_succ]

/-- Decoding a run of `4*n` letters `A` yields `3*n` NUL bytes: the decoder
handles fields of any length. -/
theorem base64_decode_replicate_A :
    ∀ n, base64_decode (List.replicate (4 * n) 65) = some (List.replicate (3 * n) 0)
  | 0 => rfl
  | n + 1 => by
      have h4 : 4 * (n + 1) = 4 * n + 1 + 1 + 1 + 1 := by ring
      have h3 : 3 * (n + 1) = 3 * n + 1 + 1 + 1 := by ring
      rw [h4, h3]
      simp only [List.replicate_succ]
      have hd : b64DecChar 65 = some 0 := rfl
      simp only [base64_decode, hd, base64_decode_replicate_A n]
      norm_num

/-- One unfolding of the locate loop when the name read succeeds. -/
theorem scanFind_step (fuel flags : Nat) (w : Wish) (s : List Nat)
    (nm : List Nat) (d : Nat) (rest : List Nat)
    (hs : attr_scan64_string s = some (nm, d, rest)) :
    scanFind (fuel + 1) flags w s =
      if d = nlB ∧ nm = [] then FindRes.term rest
      else if matchWish w nm then FindRes.found nm d rest
      else if hasFlag flags ATTR_FLAG_EXTRA then FindRes.stop nm rest
      else scanFind fuel flags w (skipToLineEnd rest) := by
  simp [scanFind, hs]

/-- The locate loop faults when the name read faults, at any fuel. -/
theorem scanFind_eof (fuel flags : Nat) (w : Wish) (s : List Nat)
    (hs : attr_scan64_string s = none) :
    scanFind fuel flags w s = FindRes.eof := by
  cases fuel with
  | zero => rfl
  | succ fuel => simp [scanFind, hs]

/-- `attr_scan64_number` on a conforming encoded value field reduces to
the `sscanf` test on the decoded bytes. -/
theorem attr_scan64_number_enc (v : List Nat) (hv : ∀ b ∈ v, b < 256)
    (rest : List Nat) :
    attr_scan64_number (base64_encode v ++ nlB :: rest) =
      (match sscanf_u 32 v with
       | none => none
       | some k => some (k, nlB, rest)) := by
  unfold attr_scan64_number
  rw [attr_scan64_string_enc v hv nlB rest (Or.inr rfl)]

/-- `attr_scan64_long_number` on a conforming encoded value field reduces
to the `sscanf` test on the decoded bytes. -/
theorem attr_scan64_long_number_enc (v : List Nat) (hv : ∀ b ∈ v, b < 256)
    (rest : List Nat) :
    attr_scan64_long_number (base64_encode v ++ nlB :: rest) =
      (match sscanf_u 64 v with
       | none => none
       | some k => some (k, nlB, rest)) := by
  unfold attr_scan64_long_number
  rw [attr_scan64_string_enc v hv nlB rest (Or.inr rfl)]

/-- Selecting `ATTR_TYPE_END` without `ATTR_FLAG_MORE` against a stream
holding just the terminator consumes it and returns the current count. -/
theorem scanStep_done_term (fuel flags cnt : Nat) (binds : List Binding)
    (table : List (List Nat × List Nat)) (warns : List Warn)
    (hmore : hasFlag flags ATTR_FLAG_MORE = false) :
    scanStep (fuel + 1) flags [Wish.done] [nlB] cnt binds table warns =
      ScanResult.ok cnt binds table warns [] := by
  have hfind : scanFind 2 flags Wish.done [nlB] = FindRes.term [] := by
    rw [show (2 : Nat) = 1 + 1 from rfl,
        scanFind_step _ _ _ _ _ _ _
          (show attr_scan64_string [nlB] = some ([], nlB, []) from rfl)]
    simp
  simp [scanStep, hmore, hfind]

/-! ### Claim theorems -/

/-- Claim C1 (code bug witness): scanning the wire
`[("x","1"),("y","2"),("x","9")]` plus terminator into a hash wish yields
the table `{x:"1", y:"2"}` (first write wins) but a returned count of 3,
not 2: the `conversions` counter of the loop at line 266 is incremented
once per wire attribute processed in the hash phase, including the
silently ignored duplicate, contradicting the module's DIAGNOSTICS
("a hash table counts as the number of entries stored into the table"). -/
theorem c1_hash_count_eval :
    attr_vscan64 0 [Wish.hash, Wish.done]
      (encAttr [120] [49] ++ encAttr [121] [50] ++ encAttr [120] [57] ++ [nlB]) =
    ScanResult.ok 3 [] [([120], [49]), ([121], [50])] [] [] := by decide

/-- Claim C2 counterexample: for wish list `[A, B, END]` against wire
`[B, A, terminator]` (names `A` = 0x41, `B` = 0x42), the scan does NOT
satisfy both wishes: it skips `B` while seeking `A`, then hits the
terminator, returning count 1 with only `A` bound. -/
theorem c2_counterexample :
    attr_vscan64 0 [Wish.str [65], Wish.str [66], Wish.done]
      (encAttr [66] [98] ++ encAttr [65] [97] ++ [nlB]) =
    ScanResult.ok 1 [Binding.bstr [65] [97]] [] [] [] := by decide

/-- Claim C7 counterexample: the decoded value `" 5"` (a space, then `5`)
contains a non-digit, yet the scan succeeds with value 5 and count 1,
because `sscanf`'s `%u` conversion skips leading whitespace; the claimed
fault `-1` does not occur. -/
theorem c7_counterexample :
    attr_vscan64 0 [Wish.num [65], Wish.done]
      (encAttr [65] [32, 53] ++ [nlB]) =
    ScanResult.ok 1 [Binding.bnum [65] 5] [] [] [] := by decide

/-- Claim C9 counterexample: a wish list containing an unrecognized value
kind (`Wish.other 77`) run against a terminator-only wire returns the
count 0 — no panic —, because the unknown type code is only detected in
the conversion switch (line 422), which is never reached when the wire
terminator arrives first. -/
theorem c9_counterexample :
    attr_vscan64 0 [Wish.other 77 [65], Wish.done] [nlB] =
    ScanResult.ok 0 [] [] [] [] := by decide

/-- Claim C10: a wire line is the list terminator only when the decoded
name is empty AND the field ended at a newline (line 310).  A line
beginning with `:` — empty name, colon delimiter — is an ordinary
attribute named `""`: it is bound by a wish named `""`, captured by a hash
phase under the key `""`, silently skipped when some other attribute is
wanted, and reported as spurious under ReportExtra; a plain newline, by
contrast, is the terminator. -/
theorem c10_terminator_newline_only :
    attr_vscan64 0 [Wish.str [], Wish.done]
        (colonB :: base64_encode [86] ++ [nlB, nlB]) =
      ScanResult.ok 1 [Binding.bstr [] [86]] [] [] []
    ∧ attr_vscan64 0 [Wish.hash, Wish.done]
        (colonB :: base64_encode [86] ++ [nlB, nlB]) =
      ScanResult.ok 1 [] [([], [86])] [] []
    ∧ attr_vscan64 0 [Wish.str [65], Wish.done]
        (colonB :: base64_encode [86] ++ nlB :: encAttr [65] [97] ++ [nlB]) =
      ScanResult.ok 1 [Binding.bstr [65] [97]] [] [] []
    ∧ attr_vscan64 ATTR_FLAG_EXTRA [Wish.str [65], Wish.done]
        (colonB :: base64_encode [86] ++ nlB :: encAttr [65] [97] ++ [nlB]) =
      ScanResult.ok 0 [] [] [Warn.spurious []]
        (base64_encode [86] ++ nlB :: encAttr [65] [97] ++ [nlB])
    ∧ attr_vscan64 0 [Wish.str [65], Wish.done] [nlB] =
      ScanResult.ok 0 [] [] [] [] := by
  refine ⟨by decide, by decide, by decide, by decide, by decide⟩

/-- Claim C4: with `ATTR_FLAG_MORE` set, the moment the wish-list cursor
selects the `ATTR_TYPE_END` entry the scan returns the current count with
the stream untouched (lines 279-281) — whatever bytes, including the
wire's terminator, remain.  Concretely, wish `[A, END]` against wire
`[A, B, C, terminator]` stops right after `A` leaving `B` onward
unconsumed, and a second scan on the leftover picks up `B`. -/
theorem c4_more_stops_at_end :
    (∀ fuel flags ws s cnt binds table warns,
        hasFlag flags ATTR_FLAG_MORE = true →
        scanStep (fuel + 1) flags (Wish.done :: ws) s cnt binds table warns =
          ScanResult.ok cnt binds table warns s)
    ∧ attr_vscan64 ATTR_FLAG_MORE [Wish.str [65], Wish.done]
        (encAttr [65] [97] ++ encAttr [66] [98] ++ encAttr [67] [99] ++ [nlB]) =
      ScanResult.ok 1 [Binding.bstr [65] [97]] [] []
        (encAttr [66] [98] ++ encAttr [67] [99] ++ [nlB])
    ∧ attr_vscan64 ATTR_FLAG_MORE [Wish.str [66], Wish.done]
        (encAttr [66] [98] ++ encAttr [67] [99] ++ [nlB]) =
      ScanResult.ok 1 [Binding.bstr [66] [98]] [] []
        (encAttr [67] [99] ++ [nlB]) := by
  refine ⟨fun fuel flags ws s cnt binds table warns h => ?_, by decide, by decide⟩
  simp [scanStep, h]

/-- Witness for C4: the universal part applied at fuel 0, flags
`ATTR_FLAG_MORE`, a mid-scan count of 3 and a nonempty stream. -/
theorem c4_witness :
    scanStep 1 ATTR_FLAG_MORE [Wish.done] [nlB] 3 [] [] [] =
      ScanResult.ok 3 [] [] [] [nlB] :=
  c4_more_stops_at_end.1 0 ATTR_FLAG_MORE [] [nlB] 3 [] [] [] (by decide)

/-- Claim C5: with `ATTR_FLAG_EXTRA` set, decoding a wire attribute name
that the current (non-hash) wish does not ask for stops the scan at once:
it returns the count accumulated so far (not a fault), logs a spurious
warning, and leaves the unmatched attribute's value unread (lines
327-331).  Concretely, wish `[A]` against wire `[B, A]` returns 0 at `B`
without reading on to find `A`. -/
theorem c5_extra_stop :
    (∀ fuel flags w ws s cnt binds table warns nm d rest,
        hasFlag flags ATTR_FLAG_EXTRA = true →
        (w = Wish.done → hasFlag flags ATTR_FLAG_MORE = false) →
        w ≠ Wish.hash →
        attr_scan64_string s = some (nm, d, rest) →
        ¬(d = nlB ∧ nm = []) →
        matchWish w nm = false →
        scanStep (fuel + 1) flags (w :: ws) s cnt binds table warns =
          ScanResult.ok cnt binds table
            (warns ++ [Warn.spurious (cstr nm)]) rest)
    ∧ attr_vscan64 ATTR_FLAG_EXTRA [Wish.str [65], Wish.done]
        (encAttr [66] [98] ++ encAttr [65] [97] ++ [nlB]) =
      ScanResult.ok 0 [] [] [Warn.spurious [66]]
        (base64_encode [98] ++ nlB :: (encAttr [65] [97] ++ [nlB])) := by
  constructor
  · intro fuel flags w ws s cnt binds table warns nm d rest
      hextra hdone hhash hs hterm hmatch
    cases s with
    | nil => simp [attr_scan64_string, readB64Field] at hs
    | cons a s' =>
        have hfind : scanFind (s'.length + 1 + 1) flags w (a :: s') =
            FindRes.stop nm rest := by
          rw [scanFind_step _ _ _ _ _ _ _ hs, if_neg hterm, hmatch]
          simp [hextra]
        cases w with
        | done => simp [scanStep, hdone rfl, hfind]
        | hash => exact absurd rfl hhash
        | num name => simp [scanStep, hfind]
        | long name => simp [scanStep, hfind]
        | str name => simp [scanStep, hfind]
        | other code name => simp [scanStep, hfind]
  · decide

/-- Witness for C5: the universal part applied at wish `A`, wire name `B`. -/
theorem c5_witness :
    scanStep 1 ATTR_FLAG_EXTRA [Wish.str [65]]
        (base64_encode [66] ++ colonB :: base64_encode [98] ++ [nlB]) 0 [] [] [] =
      ScanResult.ok 0 [] [] [Warn.spurious [66]]
        (base64_encode [98] ++ [nlB]) :=
  c5_extra_stop.1 0 ATTR_FLAG_EXTRA (Wish.str [65]) []
    (base64_encode [66] ++ colonB :: base64_encode [98] ++ [nlB]) 0 [] [] []
    [66] colonB (base64_encode [98] ++ [nlB])
    (by decide) (by simp) (by simp) (by decide) (by decide) (by decide)

/-- Claim C6: for every scan state — any fuel, flags, accumulated count,
bindings, table, warnings, pending wish list and leftover stream — reading
the clean terminator (a bare newline at the cursor) while an ordinary
(non-END, non-hash) wish is current returns success with the count
accumulated so far, and the missing-attribute warning, naming that first
unmet wish, is appended exactly when `ATTR_FLAG_MISSING` is set, never
changing the returned value (lines 310-318).  The second conjunct
instantiates the claim's example at the entry point: wish `[A, B]`
against a terminator-only wire returns 0. -/
theorem c6_missing_warning :
    (∀ fuel flags w ws s' cnt binds table warns,
        w ≠ Wish.done → w ≠ Wish.hash →
        scanStep (fuel + 1) flags (w :: ws) (nlB :: s') cnt binds table warns =
          ScanResult.ok cnt binds table
            (if hasFlag flags ATTR_FLAG_MISSING then
               warns ++ [Warn.missing (cstr (wishName w))]
             else warns) s')
    ∧ ∀ flags, flags ≤ ATTR_FLAG_ALL → ∀ A B : List Nat,
        attr_vscan64 flags [Wish.str A, Wish.str B, Wish.done] [nlB] =
          ScanResult.ok 0 [] []
            (if hasFlag flags ATTR_FLAG_MISSING then [Warn.missing (cstr A)]
             else []) [] := by
  have huniv : ∀ fuel flags w ws s' cnt binds table warns,
      w ≠ Wish.done → w ≠ Wish.hash →
      scanStep (fuel + 1) flags (w :: ws) (nlB :: s') cnt binds table warns =
        ScanResult.ok cnt binds table
          (if hasFlag flags ATTR_FLAG_MISSING then
             warns ++ [Warn.missing (cstr (wishName w))]
           else warns) s' := by
    intro fuel flags w ws s' cnt binds table warns hdone hhash
    have hs : attr_scan64_string (nlB :: s') = some ([], nlB, s') := rfl
    have hfind : scanFind (s'.length + 1 + 1) flags w (nlB :: s') =
        FindRes.term s' := by
      rw [scanFind_step _ _ _ _ _ _ _ hs]
      simp
    cases w with
    | done => exact absurd rfl hdone
    | hash => exact absurd rfl hhash
    | num name => simp [scanStep, hfind, wishName]
    | long name => simp [scanStep, hfind, wishName]
    | str name => simp [scanStep, hfind, wishName]
    | other code name => simp [scanStep, hfind, wishName]
  refine ⟨huniv, fun flags hf A B => ?_⟩
  have h7 : ¬ (ATTR_FLAG_ALL < flags) := not_lt.mpr hf
  unfold attr_vscan64
  rw [if_neg h7]
  have h := huniv 7 flags (Wish.str A) [Wish.str B, Wish.done] [] 0 [] [] []
    (by simp) (by simp)
  simp only [List.length_cons, List.length_nil]
  rw [show (0 + 1 + 1 + 1 + (0 + 1) + 4 : Nat) = 7 + 1 by norm_num, h]
  split <;> simp [wishName]

/-- Witness for C6: the universal part applied mid-scan — a `num` wish
pending at count 2 with an earlier binding, `ATTR_FLAG_MISSING` set, and
the terminator followed by a further byte that stays unread. -/
theorem c6_witness :
    scanStep 1 ATTR_FLAG_MISSING [Wish.num [65], Wish.done] [nlB, colonB] 2
        [Binding.bstr [66] [98]] [] [] =
      ScanResult.ok 2 [Binding.bstr [66] [98]] [] [Warn.missing [65]]
        [colonB] := by
  have h := c6_missing_warning.1 0 ATTR_FLAG_MISSING (Wish.num [65])
    [Wish.done] [colonB] 2 [Binding.bstr [66] [98]] [] []
    (by simp) (by simp)
  simpa using h

/-- Claim C8: true end-of-stream while reading an attribute name is a
fault (-1) under every recognized flag combination (lines 307-309 via the
EOF return of `attr_scan64_string`, lines 170-175).  The hypotheses only
keep the scanner from returning before it ever reads a name (END wish
under `ATTR_FLAG_MORE`, or a malformed hash wish, which panics). -/
theorem c8_eof_fault (flags : Nat) (hf : flags ≤ ATTR_FLAG_ALL)
    (w : Wish) (ws : List Wish) (s : List Nat)
    (hs : ∀ c ∈ s, c ≠ colonB ∧ c ≠ nlB)
    (hdone : w = Wish.done → hasFlag flags ATTR_FLAG_MORE = false)
    (hhash : w = Wish.hash → ws.head? = some Wish.done) :
    attr_vscan64 flags (w :: ws) s = ScanResult.fault := by
  have hstr : attr_scan64_string s = none := attr_scan64_string_eof s hs
  have hfind : ∀ f w', scanFind f flags w' s = FindRes.eof :=
    fun f w' => scanFind_eof f flags w' s hstr
  have h7 : ¬ (ATTR_FLAG_ALL < flags) := not_lt.mpr hf
  unfold attr_vscan64
  rw [if_neg h7]
  have hfuel : (w :: ws).length + s.length + 4 =
      (ws.length + s.length + 4) + 1 := by
    simp [List.length_cons]
    ring
  rw [hfuel]
  cases w with
  | done => simp [scanStep, hdone rfl, hfind]
  | hash =>
      have hh := hhash rfl
      cases ws with
      | nil => simp at hh
      | cons a t =>
          have ha : a = Wish.done := by simpa using hh
          subst ha
          simp [scanStep, hfind]
  | num name => simp [scanStep, hfind]
  | long name => simp [scanStep, hfind]
  | str name => simp [scanStep, hfind]
  | other code name => simp [scanStep, hfind]

/-- Witness for C8: wish `[A, END]`, flags 0, a stream that ends inside a
name: the scan faults. -/
theorem c8_witness :
    attr_vscan64 0 [Wish.str [65], Wish.done] [65, 66] = ScanResult.fault :=
  c8_eof_fault 0 (by decide) (Wish.str [65]) [Wish.done] [65, 66]
    (by decide) (by simp) (by simp)

/-- Claim C2 (amended): with `ATTR_FLAG_EXTRA` unset the locate loop
silently skips any wire attribute the current wish does not ask for — one
whole line at a time, in one forward pass — so unrequested attributes
interleaved in wish order are tolerated (second conjunct, count 2), but
the pass never rewinds: a requested attribute that already went by is
lost (see `c2_counterexample`). -/
theorem c2_sequential_matching :
    (∀ fuel flags w m val rest,
        (∀ b ∈ m, b < 256) → (∀ b ∈ val, b < 256) →
        hasFlag flags ATTR_FLAG_EXTRA = false →
        matchWish w m = false →
        scanFind (fuel + 1) flags w (encAttr m val ++ rest) =
          scanFind fuel flags w rest)
    ∧ attr_vscan64 0 [Wish.str [65], Wish.str [66], Wish.done]
        (encAttr [88] [1] ++ encAttr [65] [97] ++ encAttr [89] [2] ++
         encAttr [66] [98] ++ [nlB]) =
      ScanResult.ok 2 [Binding.bstr [65] [97], Binding.bstr [66] [98]]
        [] [] [] := by
  constructor
  · intro fuel flags w m val rest hm hval hextra hmatch
    have hshape : encAttr m val ++ rest =
        base64_encode m ++ colonB :: (base64_encode val ++ nlB :: rest) := by
      simp [encAttr]
    rw [hshape,
        scanFind_step _ _ _ _ _ _ _
          (attr_scan64_string_enc m hm colonB _ (Or.inl rfl)),
        if_neg (by simp [colonB, nlB]), hmatch]
    simp only [Bool.false_eq_true, if_false, hextra]
    rw [skipToLineEnd_append (base64_encode val)
          (fun c hc => (base64_encode_no_delim val hval c hc).2) rest]
  · decide

/-- Witness for C2's amended theorem: skipping the unrequested attribute
`B` consumes exactly its line. -/
theorem c2_witness :
    scanFind 1 0 (Wish.str [65]) (encAttr [66] [98] ++ []) = FindRes.eof := by
  have h := c2_sequential_matching.1 0 0 (Wish.str [65]) [66] [98] []
    (by decide) (by decide) (by decide) (by decide)
  simpa using h

/-- Claim C3 (code bug witness): the field decoder accepts encoded fields
of unbounded length — the 2×limit check of lines 177-183 is compiled out
(`#if 0`) — so a name of `4*n` base64 characters (any `n`, e.g. 1025,
giving 4100 > 2×2048 characters) is decoded and the scan proceeds
normally instead of faulting. -/
theorem c3_oversize_accepted :
    (∀ n rest,
        attr_scan64_string (List.replicate (4 * n) 65 ++ colonB :: rest) =
          some (List.replicate (3 * n) 0, colonB, rest))
    ∧ ∀ n, attr_vscan64 0 [Wish.hash, Wish.done]
        (List.replicate (4 * n) 65 ++
         colonB :: (base64_encode [86] ++ nlB :: [nlB])) =
      ScanResult.ok 1 [] [([], [86])] [] [] := by
  have hfield : ∀ n rest,
      attr_scan64_string (List.replicate (4 * n) 65 ++ colonB :: rest) =
        some (List.replicate (3 * n) 0, colonB, rest) := by
    intro n rest
    unfold attr_scan64_string
    rw [readB64Field_append _
          (fun c hc => by
            have : c = 65 := List.eq_of_mem_replicate hc
            subst this
            exact ⟨by simp [colonB], by simp [nlB]⟩)
          _ _ (Or.inl rfl)]
    simp only [base64_decode_replicate_A n]
  refine ⟨hfield, fun n => ?_⟩
  unfold attr_vscan64
  rw [if_neg (by decide)]
  obtain ⟨f, hf⟩ : ∃ f, [Wish.hash, Wish.done].length +
      (List.replicate (4 * n) 65 ++
        colonB :: (base64_encode [86] ++ nlB :: [nlB])).length + 4 =
      f + 1 + 1 := ⟨4 * n + 11, by simp [base64_encode, b64EncChar]; ring⟩
  rw [hf]
  have hfind : ∀ g, scanFind (g + 1) 0 Wish.hash
      (List.replicate (4 * n) 65 ++
        colonB :: (base64_encode [86] ++ nlB :: [nlB])) =
      FindRes.found (List.replicate (3 * n) 0) colonB
        (base64_encode [86] ++ nlB :: [nlB]) := by
    intro g
    rw [scanFind_step _ _ _ _ _ _ _ (hfield n _),
        if_neg (by simp [colonB, nlB])]
    simp [matchWish]
  have hval : attr_scan64_string (base64_encode [86] ++ nlB :: [nlB]) =
      some ([86], nlB, [nlB]) :=
    attr_scan64_string_enc [86] (by decide) nlB [nlB] (Or.inr rfl)
  have hfind2 : scanFind 2 0 Wish.hash [nlB] = FindRes.term [] := by
    rw [show (2 : Nat) = 1 + 1 from rfl,
        scanFind_step _ _ _ _ _ _ _
          (show attr_scan64_string [nlB] = some ([], nlB, []) from rfl)]
    simp
  simp [scanStep, hfind, hval, hfind2, cstr_replicate_zero, htable_locate,
        cstr, hasFlag]

/-- Claim C7 (amended): the scan outcome for a `num`/`long` wish is exactly
the `sscanf("%u%c")`/`"%lu%c"` test on the decoded value bytes — leading
C whitespace and an optional sign are consumed by the numeric conversion
and overflow wraps/saturates instead of failing; the scan faults precisely
when no number converts or a character trails it (e.g. `"12a"`). -/
theorem c7_sscanf_semantics (n v : List Nat) (hn : ∀ b ∈ n, b < 256)
    (hv : ∀ b ∈ v, b < 256) :
    (attr_vscan64 0 [Wish.num n, Wish.done] (encAttr n v ++ [nlB]) =
      (match sscanf_u 32 v with
       | none => ScanResult.fault
       | some k => ScanResult.ok 1 [Binding.bnum n k] [] [] []))
    ∧ (attr_vscan64 0 [Wish.long n, Wish.done] (encAttr n v ++ [nlB]) =
      (match sscanf_u 64 v with
       | none => ScanResult.fault
       | some k => ScanResult.ok 1 [Binding.blong n k] [] [] [])) := by
  have hshape : encAttr n v ++ [nlB] =
      base64_encode n ++ colonB :: (base64_encode v ++ nlB :: [nlB]) := by
    simp [encAttr]
  have hfind : ∀ f w, matchWish w n = true →
      scanFind (f + 1) 0 w
        (base64_encode n ++ colonB :: (base64_encode v ++ nlB :: [nlB])) =
      FindRes.found n colonB (base64_encode v ++ nlB :: [nlB]) := by
    intro f w hw
    rw [scanFind_step _ _ _ _ _ _ _
          (attr_scan64_string_enc n hn colonB _ (Or.inl rfl)),
        if_neg (by simp [colonB, nlB]), hw]
    simp
  have hs1 : attr_scan64_string [nlB] = some ([], nlB, []) := rfl
  constructor
  · unfold attr_vscan64
    rw [if_neg (by decide), hshape]
    obtain ⟨f, hf⟩ : ∃ f, [Wish.num n, Wish.done].length +
        (base64_encode n ++ colonB :: (base64_encode v ++ nlB :: [nlB])).length
          + 4 = f + 1 + 1 :=
      ⟨[Wish.num n, Wish.done].length +
        (base64_encode n ++ colonB ::
          (base64_encode v ++ nlB :: [nlB])).length + 2, by omega⟩
    rw [hf]
    have hfindn := hfind
      ((base64_encode n ++ colonB :: (base64_encode v ++ nlB :: [nlB])).length)
      (Wish.num n) (by simp [matchWish, wishName])
    simp only [scanStep, hfindn]
    rw [attr_scan64_number_enc v hv [nlB]]
    cases hsv : sscanf_u 32 v with
    | none => simp
    | some k => simp [scanFind, hs1, hasFlag]
  · unfold attr_vscan64
    rw [if_neg (by decide), hshape]
    obtain ⟨f, hf⟩ : ∃ f, [Wish.long n, Wish.done].length +
        (base64_encode n ++ colonB :: (base64_encode v ++ nlB :: [nlB])).length
          + 4 = f + 1 + 1 :=
      ⟨[Wish.long n, Wish.done].length +
        (base64_encode n ++ colonB ::
          (base64_encode v ++ nlB :: [nlB])).length + 2, by omega⟩
    rw [hf]
    have hfindn := hfind
      ((base64_encode n ++ colonB :: (base64_encode v ++ nlB :: [nlB])).length)
      (Wish.long n) (by simp [matchWish, wishName])
    simp only [scanStep, hfindn]
    rw [attr_scan64_long_number_enc v hv [nlB]]
    cases hsv : sscanf_u 64 v with
    | none => simp
    | some k => simp [scanFind, hs1, hasFlag]

/-- Witness for C7's amended theorem: value `"7"` parses, the scan binds 7. -/
theorem c7_witness :
    attr_vscan64 0 [Wish.num [65], Wish.done] (encAttr [65] [55] ++ [nlB]) =
      ScanResult.ok 1 [Binding.bnum [65] 7] [] [] [] := by
  rw [(c7_sscanf_semantics [65] [55] (by decide) (by decide)).1]
  decide

/-- Claim C9 (amended): contract violations panic exactly where the code
checks them — unknown mode flags unconditionally at entry (lines 249-253);
a `HASH` wish not immediately followed by `END` when that wish is selected
(lines 286-288); an unrecognized type code when a wire attribute matches
its name and conversion is attempted (lines 422-423).  None of these paths
returns a count or the fault value, but a scan that returns before
reaching the malformed entry does return a count or fault (see
`c9_counterexample`). -/
theorem c9_contract_panics :
    (∀ flags wishes s, ATTR_FLAG_ALL < flags →
        attr_vscan64 flags wishes s = ScanResult.panic)
    ∧ (∀ fuel flags ws s cnt binds table warns,
        ws.head? ≠ some Wish.done →
        scanStep (fuel + 1) flags (Wish.hash :: ws) s cnt binds table warns =
          ScanResult.panic)
    ∧ (∀ fuel flags code name ws s cnt binds table warns nm d rest,
        attr_scan64_string s = some (nm, d, rest) →
        ¬(d = nlB ∧ nm = []) →
        cstr name = cstr nm →
        scanStep (fuel + 1) flags (Wish.other code name :: ws) s
            cnt binds table warns =
          ScanResult.panic) := by
  refine ⟨fun flags wishes s h => by simp [attr_vscan64, h], ?_, ?_⟩
  · intro fuel flags ws s cnt binds table warns hws
    cases ws with
    | nil => simp [scanStep]
    | cons a t =>
        cases a with
        | done => exact absurd rfl hws
        | num x => simp [scanStep]
        | long x => simp [scanStep]
        | str x => simp [scanStep]
        | hash => simp [scanStep]
        | other c x => simp [scanStep]
  · intro fuel flags code name ws s cnt binds table warns nm d rest
      hs hterm hname
    cases s with
    | nil => simp [attr_scan64_string, readB64Field] at hs
    | cons a s' =>
        have hfind : scanFind (s'.length + 1 + 1) flags
            (Wish.other code name) (a :: s') = FindRes.found nm d rest := by
          rw [scanFind_step _ _ _ _ _ _ _ hs, if_neg hterm]
          simp [matchWish, wishName, hname]
        simp [scanStep, hfind]

/-- Witness for C9's amended theorem: an unrecognized flag bit (8) panics. -/
theorem c9_witness : attr_vscan64 8 [] [] = ScanResult.panic :=
  c9_contract_panics.1 8 [] [] (by decide)

end AttrScan64
